import Mathlib

/-!
Shallow embedding of `cribbage_hand_scorer.py` together with proofs about it.

A card is a pair `(rank, suit)`: ranks are naturals and suits are single
characters (`'s'`, `'h'`, `'d'`, `'c'`), exactly as in the Python source,
where suits are one-character strings and tuple/string comparison coincides
with the `Nat`/`Char` orders used here.  Python exceptions are modelled by
`Option` in the rule evaluators (the only failure they can exhibit is the
`IndexError`/`ValueError` of `cards[-1]` or `max([])` on malformed internal
calls), and by `Except String` in the entry point `score`, whose validation
failures carry the source's message strings.

`itertools.combinations(cards, k)` enumerates, exactly once each, the
length-`k` subsequences of `cards` keeping the original relative order of
elements, which is precisely `List.sublistsLen k cards`; all uses below are
order-insensitive aggregates (`max`, counts, lengths) or feed a sort by a
total relation, so the enumeration order itself is immaterial.
-/

open scoped List

abbrev Card : Type := Nat × Char

/-- Source constant `_CARD_NUMBERS = range(1, 14)`. -/
def CARD_NUMBERS : List Nat := List.range' 1 13

/-- Source constant `_SUITS = ['s', 'h', 'd', 'c']`. -/
def SUITS : List Char := ['s', 'h', 'd', 'c']

/-- Source constant `_ALL_CARDS = list(product(_CARD_NUMBERS, _SUITS))`. -/
def ALL_CARDS : List Card := CARD_NUMBERS.flatMap (fun n => SUITS.map (fun s => (n, s)))

def SINGLE_CARD_SCORE : Nat := 1
def HIS_NIBS_SCORE : Nat := SINGLE_CARD_SCORE * 1
def PAIR_SCORE : Nat := SINGLE_CARD_SCORE * 2
def SPECIAL_TOTAL_SCORE : Nat := SINGLE_CARD_SCORE * 2
def SPECIAL_TOTAL : Nat := 15
def MIN_HAND_SIZE : Nat := 4
def MIN_SEQUENCE_SIZE : Nat := 3
def MIN_FLUSH_SIZE : Nat := 4
def MAX_CARD_NUMBER : Nat := 10

/-- Python `score_his_nibs(cards)`.  `none` models the `IndexError` raised by
`cards[-1]` on an empty tuple; otherwise the last card is the top-of-deck
card and jacks of its suit are counted among the remaining cards. -/
def score_his_nibs (cards : List Card) : Option Nat :=
  match cards.getLast? with
  | none => none
  | some top_of_deck_card =>
    let other_cards := cards.dropLast
    some ((other_cards.filter
      (fun card => card.1 == 11 && card.2 == top_of_deck_card.2)).length * HIS_NIBS_SCORE)

/-- Python `score_flush(cards)`.  The last card is taken as the top-of-deck
card (`none` models the `IndexError` of `cards[-1]` on an empty tuple); the
remaining cards must number at least `MIN_FLUSH_SIZE` and share one suit,
with one extra point when the top-of-deck card has that suit too (the
Python comparison `suits == set(top_of_deck_card[1])` on one-character
strings is equality of the suit set with the singleton of the top suit). -/
def score_flush (cards : List Card) : Option Nat :=
  match cards.getLast? with
  | none => none
  | some top_of_deck_card =>
    let other_cards := cards.dropLast
    if other_cards.length < MIN_FLUSH_SIZE then
      some 0
    else
      let suits := (other_cards.map Prod.snd).dedup
      if suits.length = 1 then
        some (other_cards.length * SINGLE_CARD_SCORE +
          if suits = [top_of_deck_card.2] then SINGLE_CARD_SCORE else 0)
      else
        some 0

/-- Python `score_sequence(cards)`: sort the ranks, form the set of
consecutive differences (`dedup` models the set comprehension), and score
`len(cards)` when that set is exactly `{1}`. -/
def score_sequence (cards : List Card) : Nat :=
  if cards.length < MIN_SEQUENCE_SIZE then 0
  else
    let card_numbers := List.insertionSort (· ≤ ·) (cards.map Prod.fst)
    let card_number_differences :=
      ((card_numbers.zip card_numbers.tail).map (fun p => p.2 - p.1)).dedup
    if card_number_differences = [1] then cards.length * SINGLE_CARD_SCORE else 0

/-- Python `score_sequences(cards)`: score every sublist of size at least
`MIN_SEQUENCE_SIZE`, then return the maximum sublist score times the number
of sublists achieving it.  `none` models the `ValueError` of `max([])` when
no sublist exists. -/
def score_sequences (cards : List Card) : Option Nat :=
  let card_sublists :=
    (List.range' MIN_SEQUENCE_SIZE (cards.length + 1 - MIN_SEQUENCE_SIZE)).flatMap
      (fun i => List.sublistsLen i cards)
  let card_sublist_scores := card_sublists.map score_sequence
  match card_sublist_scores.max? with
  | none => none
  | some max_sublist_score =>
    some (max_sublist_score *
      (card_sublist_scores.filter (fun s => s == max_sublist_score)).length)

/-- The predicate of the comprehension in `score_pairs`: a 2-element
combination whose two cards share a rank. -/
def is_rank_pair : List Card → Bool
  | [card1, card2] => card1.1 == card2.1
  | _ => false

/-- Python `score_pairs(cards)`: count the 2-element combinations with equal
ranks and multiply by `PAIR_SCORE`. -/
def score_pairs (cards : List Card) : Nat :=
  ((List.sublistsLen 2 cards).filter is_rank_pair).length * PAIR_SCORE

/-- The capping in `score_special_totals`: `MAX_CARD_NUMBER if card_number >=
MAX_CARD_NUMBER else card_number`. -/
def capped_card_number (card_number : Nat) : Nat :=
  if MAX_CARD_NUMBER ≤ card_number then MAX_CARD_NUMBER else card_number

/-- Python `score_special_totals(cards)`: over every sublist of size 1 up to
`len(cards)`, count those whose capped rank sum equals `SPECIAL_TOTAL` and
multiply by `SPECIAL_TOTAL_SCORE`. -/
def score_special_totals (cards : List Card) : Nat :=
  let card_sublists :=
    (List.range' 1 cards.length).flatMap (fun i => List.sublistsLen i cards)
  let card_total_sublists :=
    card_sublists.map (fun card_sublist =>
      (card_sublist.map (fun card => capped_card_number card.1)).sum)
  (card_total_sublists.filter (fun t => t == SPECIAL_TOTAL)).length * SPECIAL_TOTAL_SCORE

/-- Python `score_min_card_combo(cards, top_of_deck_card)`: append the
top-of-deck card when present (also triggering his nibs), then sum the five
rule evaluators; a `none` from any evaluator (a Python exception)
propagates. -/
def score_min_card_combo (cards : List Card) (top_of_deck_card : Option Card) : Option Nat :=
  match top_of_deck_card with
  | none =>
    match score_flush cards, score_sequences cards with
    | some flush, some seqs =>
      some (flush + seqs + score_pairs cards + score_special_totals cards)
    | _, _ => none
  | some top =>
    let cards := cards ++ [top]
    match score_his_nibs cards, score_flush cards, score_sequences cards with
    | some nibs, some flush, some seqs =>
      some (nibs + flush + seqs + score_pairs cards + score_special_totals cards)
    | _, _, _ => none

/-- Strict comparison of two cards, matching Python tuple comparison
`(rank, suit) < (rank, suit)` (one-character suit strings compare by code
point, which is the `Char` order). -/
def cardLt (a b : Card) : Bool :=
  decide (a.1 < b.1) || (a.1 == b.1 && decide (a.2 < b.2))

/-- Strict lexicographic comparison of card tuples, matching Python tuple
comparison. -/
def handLt : List Card → List Card → Bool
  | [], [] => false
  | [], _ :: _ => true
  | _ :: _, [] => false
  | a :: as, b :: bs => cardLt a b || (a == b && handLt as bs)

/-- The total order used by Python's `list.sort()` on `(score, hand)`
tuples: compare scores first, then the hand tuples lexicographically. -/
def scoredLe (p q : Nat × List Card) : Prop :=
  p.1 < q.1 ∨ (p.1 = q.1 ∧ (p.2 = q.2 ∨ handLt p.2 q.2 = true))

instance : DecidableRel scoredLe := fun p q => by
  unfold scoredLe; infer_instance

/-- The comprehension `[(score_min_card_combo(hand, top), hand) for hand in
combos]` of `score`, with a Python exception from any element (`none`)
aborting the whole list. -/
def score_each_combo (top_of_deck_card : Option Card) :
    List (List Card) → Option (List (Nat × List Card))
  | [] => some []
  | hand :: rest =>
    match score_min_card_combo hand top_of_deck_card,
        score_each_combo top_of_deck_card rest with
    | some s, some scored => some ((s, hand) :: scored)
    | _, _ => none

/-- The tail of Python `score` after validation: enumerate the
`MIN_HAND_SIZE`-card combinations, score each with the top-of-deck card, and
sort the `(score, hand)` pairs by Python tuple comparison (`list.sort()` is
a stable sort by the total order `scoredLe`; since `insertionSort` is also
stable, the two agree exactly). -/
def score_combos_sorted (cards : List Card) (top_of_deck_card : Option Card) :
    Except String (List (Nat × List Card) × Option Card) :=
  match score_each_combo top_of_deck_card (List.sublistsLen MIN_HAND_SIZE cards) with
  | some scored => .ok (List.insertionSort scoredLe scored, top_of_deck_card)
  | none => .error "Unhandled error while scoring"

/-- Python `score(cards, top_of_deck_card)`: validate (raising the source's
messages in the source's order), then score and sort. -/
def score (cards : List Card) (top_of_deck_card : Option Card) :
    Except String (List (Nat × List Card) × Option Card) :=
  if ¬ (∀ c ∈ cards, c ∈ ALL_CARDS) then
    .error "Invalid hand provided: Contains cards that are invalid"
  else if cards.length < MIN_HAND_SIZE then
    .error "Invalid hand provided: Contains not enough cards"
  else if cards.length ≠ cards.dedup.length then
    .error "Invalid hand provided: Contains duplicate cards"
  else
    match top_of_deck_card with
    | some top =>
      if top ∉ ALL_CARDS then
        .error "Invalid top-of-deck card provided: Card is invalid"
      else if top ∈ cards then
        .error "Invalid top-of-deck card provided: Card is duplicated"
      else
        score_combos_sorted cards (some top)
    | none =>
      score_combos_sorted cards none

/-- The §4.1 validity condition on the optional top-of-deck card. -/
def validCut : Option Card → List Card → Prop
  | none, _ => True
  | some t, cards => t ∈ ALL_CARDS ∧ t ∉ cards

instance : ∀ (top : Option Card) (cards : List Card), Decidable (validCut top cards)
  | none, _ => isTrue trivial
  | some _, _ => by unfold validCut; infer_instance

/-- The §4.1 validity conditions on an input, as the spec states them. -/
def validInput (cards : List Card) (top_of_deck_card : Option Card) : Prop :=
  (∀ c ∈ cards, c ∈ ALL_CARDS) ∧ MIN_HAND_SIZE ≤ cards.length ∧ cards.Nodup ∧
    validCut top_of_deck_card cards

instance (cards : List Card) (top : Option Card) : Decidable (validInput cards top) := by
  unfold validInput
  infer_instance

namespace Spec

/-- Spec §4.4: a set of cards is a run iff, after sorting by rank, every
consecutive rank difference equals 1 (equivalently, the sorted ranks ascend
by exactly one at every step, so duplicates break the run). -/
def IsRun (l : List Card) : Prop :=
  List.Chain' (fun a b => b = a + 1) (List.insertionSort (· ≤ ·) (l.map Prod.fst))

instance : DecidablePred IsRun := fun l => by
  unfold IsRun; infer_instance

/-- Spec §4.4: a qualifying run (at least 3 cards) of length L scores L. -/
def runScore (l : List Card) : Nat :=
  if 3 ≤ l.length ∧ IsRun l then l.length else 0

/-- Spec §4.4: every subset of the candidate set of size at least 3. -/
def runSubsets (cards : List Card) : List (List Card) :=
  cards.sublists.filter (fun l => decide (3 ≤ l.length))

/-- Spec §4.4: the maximum run score achieved by any subset. -/
def maxRunScore (cards : List Card) : Nat :=
  ((runSubsets cards).map runScore).foldl max 0

/-- Spec §4.4: how many distinct subsets achieve the maximum run score. -/
def maxRunCount (cards : List Card) : Nat :=
  ((runSubsets cards).map runScore).countP (fun s => s == maxRunScore cards)

/-- Spec §4.5: the non-empty subsets whose `min(rank, 10)` sum is exactly
15. -/
def fifteenSubsets (cards : List Card) : List (List Card) :=
  cards.sublists.filter (fun l => !l.isEmpty && ((l.map (fun c => min c.1 10)).sum == 15))

/-- Spec §4.3: the unordered 2-element subsets whose two cards share one
rank. -/
def rankPairs (cards : List Card) : List (List Card) :=
  cards.sublists.filter (fun l => decide (l.length = 2 ∧ ∀ a ∈ l, ∀ b ∈ l, a.1 = b.1))

end Spec

/-! ### Generic list helpers -/

theorem dedup_eq_singleton_iff {α : Type} [DecidableEq α] {xs : List α} {a : α} :
    xs.dedup = [a] ↔ xs ≠ [] ∧ ∀ x ∈ xs, x = a := by
  constructor
  · intro h
    constructor
    · rintro rfl
      simp [List.dedup_nil] at h
    · intro x hx
      have hmem : x ∈ xs.dedup := List.mem_dedup.2 hx
      rw [h] at hmem
      simpa using hmem
  · rintro ⟨hne, hall⟩
    induction xs with
    | nil => exact absurd rfl hne
    | cons x xs ih =>
      have hx : x = a := hall x (List.mem_cons_self x xs)
      subst hx
      cases xs with
      | nil => simp [List.dedup_cons_of_not_mem]
      | cons y ys =>
        have hmem : x ∈ y :: ys := by
          have : y = x := hall y (by simp)
          simp [this]
        rw [List.dedup_cons_of_mem hmem]
        exact ih (by simp) (fun z hz => hall z (List.mem_cons_of_mem _ hz))

/-- A list of consecutive differences is constantly `1` (as a set) iff the
list climbs by exactly one at every step. -/
theorem diffs_dedup_eq_one_iff : ∀ {xs : List Nat}, 2 ≤ xs.length →
    (((xs.zip xs.tail).map (fun p => p.2 - p.1)).dedup = [1] ↔
      List.Chain' (fun a b => b = a + 1) xs)
  | [], h | [_], h => by simp at h
  | a :: b :: rest, _ => by
    rw [dedup_eq_singleton_iff]
    rw [List.chain'_cons]
    cases rest with
    | nil => simp; omega
    | cons c rest' =>
      rw [← @diffs_dedup_eq_one_iff (b :: c :: rest') (by simp)]
      rw [dedup_eq_singleton_iff]
      constructor
      · rintro ⟨-, hall⟩
        refine ⟨by have := hall (b - a) (by simp); omega, by simp, ?_⟩
        intro x hx
        exact hall x (by simpa using Or.inr (by simpa using hx))
      · rintro ⟨hab, -, hall⟩
        refine ⟨by simp, ?_⟩
        intro x hx
        simp only [List.zip_cons_cons, List.tail_cons, List.map_cons, List.mem_cons] at hx
        rcases hx with rfl | hx
        · omega
        · exact hall x (by simpa using hx)

/-- The code's per-subset sequence score is exactly the spec's run score. -/
theorem score_sequence_eq_runScore (l : List Card) : score_sequence l = Spec.runScore l := by
  simp only [score_sequence, Spec.runScore, Spec.IsRun]
  by_cases h : l.length < MIN_SEQUENCE_SIZE
  · rw [if_pos h, if_neg]
    rintro ⟨h3, -⟩
    simp only [MIN_SEQUENCE_SIZE] at h
    omega
  · rw [if_neg h]
    have hlen : 2 ≤ (List.insertionSort (· ≤ ·) (l.map Prod.fst)).length := by
      rw [List.length_insertionSort, List.length_map]
      simp only [MIN_SEQUENCE_SIZE] at h
      omega
    by_cases hrun :
        List.Chain' (fun a b => b = a + 1) (List.insertionSort (· ≤ ·) (l.map Prod.fst))
    · rw [if_pos ((diffs_dedup_eq_one_iff hlen).2 hrun),
        if_pos ⟨by simp only [MIN_SEQUENCE_SIZE] at h; omega, hrun⟩]
      simp [SINGLE_CARD_SCORE]
    · rw [if_neg (fun hc => hrun ((diffs_dedup_eq_one_iff hlen).1 hc)),
        if_neg (fun hc => hrun hc.2)]

/-- Distributing a membership-constant `if` through `flatMap` over a
duplicate-free index list. -/
theorem flatMap_ite_eq {α : Type} {ns : List Nat} (hnd : ns.Nodup) (k : Nat) (A : List α) :
    ns.flatMap (fun i => if i = k then A else []) = if k ∈ ns then A else [] := by
  induction ns with
  | nil => simp
  | cons m ms ih =>
    rw [List.flatMap_cons]
    rcases List.nodup_cons.1 hnd with ⟨hm, hms⟩
    by_cases hmk : m = k
    · subst hmk
      rw [if_pos rfl, if_pos (by simp), ih hms, if_neg hm, List.append_nil]
    · rw [if_neg hmk, List.nil_append, ih hms]
      by_cases hk : k ∈ ms
      · rw [if_pos hk, if_pos (by simp [hk])]
      · rw [if_neg hk, if_neg (by simp [hk, Ne.symm hmk])]

/-- The code's size-graded enumeration of sublists of size at least `lo` is
a permutation of the spec's "all subsets of size at least `lo`". -/
theorem flatMap_range'_sublistsLen_perm {α : Type} [DecidableEq α] (lo : Nat) (l : List α) :
    ((List.range' lo (l.length + 1 - lo)).flatMap (fun i => List.sublistsLen i l)) ~
      l.sublists.filter (fun t => decide (lo ≤ t.length)) := by
  rcases le_or_lt lo (l.length + 1) with hlo | hlo
  · have key : l.sublists.filter (fun t => decide (lo ≤ t.length)) ~
        ((List.range (l.length + 1)).flatMap fun n => List.sublistsLen n l).filter
          (fun t => decide (lo ≤ t.length)) :=
      ((l.sublists_perm_sublists').trans (List.range_bind_sublistsLen_perm l).symm).filter _
    refine (key.trans ?_).symm
    rw [List.filter_flatMap]
    have hsplit : List.range (l.length + 1) =
        List.range' 0 lo ++ List.range' lo (l.length + 1 - lo) := by
      rw [List.range_eq_range',
        show List.range' lo (l.length + 1 - lo) = List.range' (0 + lo) (l.length + 1 - lo) by
          rw [Nat.zero_add],
        List.range'_append_1]
      congr 1
      omega
    rw [hsplit, List.flatMap_append]
    have h0 : (List.range' 0 lo).flatMap
        (fun i => (List.sublistsLen i l).filter (fun t => decide (lo ≤ t.length))) = [] := by
      rw [List.flatMap_eq_nil_iff]
      intro i hi
      rw [List.filter_eq_nil_iff]
      intro t ht
      have hlent := List.length_of_sublistsLen ht
      have hilt : i < lo := by
        rcases List.mem_range'.1 hi with ⟨j, hj, rfl⟩
        omega
      simp only [decide_eq_true_eq, hlent]
      omega
    rw [h0, List.nil_append]
    have h1 : ∀ i ∈ List.range' lo (l.length + 1 - lo),
        (List.sublistsLen i l).filter (fun t => decide (lo ≤ t.length)) =
          List.sublistsLen i l := by
      intro i hi
      rw [List.filter_eq_self]
      intro t ht
      have hlent := List.length_of_sublistsLen ht
      have hile : lo ≤ i := by
        rcases List.mem_range'.1 hi with ⟨j, hj, rfl⟩
        omega
      simp only [decide_eq_true_eq, hlent]
      exact hile
    rw [List.flatMap_def, List.map_congr_left h1, ← List.flatMap_def]
  · have h1 : l.length + 1 - lo = 0 := by omega
    rw [h1, List.range'_zero, List.flatMap_nil]
    have h2 : l.sublists.filter (fun t => decide (lo ≤ t.length)) = [] := by
      rw [List.filter_eq_nil_iff]
      intro t ht
      have := (List.mem_sublists.1 ht).length_le
      simp only [decide_eq_true_eq]
      omega
    rw [h2]

/-- The code's fixed-size enumeration of sublists is a permutation of the
spec's "all subsets of size `n`". -/
theorem sublistsLen_perm_filter_sublists {α : Type} [DecidableEq α] (n : Nat) (l : List α) :
    List.sublistsLen n l ~ l.sublists.filter (fun t => decide (t.length = n)) := by
  have key : l.sublists.filter (fun t => decide (t.length = n)) ~
      ((List.range (l.length + 1)).flatMap fun i => List.sublistsLen i l).filter
        (fun t => decide (t.length = n)) :=
    ((l.sublists_perm_sublists').trans (List.range_bind_sublistsLen_perm l).symm).filter _
  refine (key.trans ?_).symm
  rw [List.filter_flatMap]
  have h1 : ∀ i ∈ List.range (l.length + 1),
      (List.sublistsLen i l).filter (fun t => decide (t.length = n)) =
        if i = n then List.sublistsLen n l else [] := by
    intro i _
    by_cases hin : i = n
    · subst hin
      rw [if_pos rfl, List.filter_eq_self]
      intro t ht
      simp [List.length_of_sublistsLen ht]
    · rw [if_neg hin, List.filter_eq_nil_iff]
      intro t ht
      simp [List.length_of_sublistsLen ht, hin]
  rw [List.flatMap_def, List.map_congr_left h1, ← List.flatMap_def,
    flatMap_ite_eq (List.nodup_range _) n]
  by_cases hn : n ∈ List.range (l.length + 1)
  · rw [if_pos hn]
  · rw [if_neg hn]
    rw [List.mem_range] at hn
    rw [List.sublistsLen_of_length_lt (show l.length < n by omega)]

theorem foldl_max_perm {l l' : List Nat} (h : l ~ l') :
    ∀ acc, l.foldl max acc = l'.foldl max acc := by
  induction h with
  | nil => intro _; rfl
  | cons x _ ih =>
    intro acc
    simp only [List.foldl_cons]
    exact ih _
  | swap x y l =>
    intro acc
    simp only [List.foldl_cons]
    congr 1
    omega
  | trans _ _ ih1 ih2 =>
    intro acc
    exact (ih1 acc).trans (ih2 acc)

theorem max?_eq_some_foldl {l : List Nat} (h : l ≠ []) : l.max? = some (l.foldl max 0) := by
  cases l with
  | nil => exact absurd rfl h
  | cons a t =>
    rw [List.max?_cons', List.foldl_cons, Nat.zero_max]

theorem max?_perm {l l' : List Nat} (h : l ~ l') : l.max? = l'.max? := by
  cases l with
  | nil =>
    rw [h.symm.eq_nil]
  | cons a t =>
    have h2 : l' ≠ [] := by
      intro e
      rw [e] at h
      exact absurd h.eq_nil (by simp)
    rw [max?_eq_some_foldl (by simp), max?_eq_some_foldl h2, foldl_max_perm h]

/-- The scores that `score_sequences` aggregates are (up to permutation) the
spec's run scores over all subsets of size at least 3. -/
theorem score_sequences_scores_perm (cards : List Card) :
    (((List.range' MIN_SEQUENCE_SIZE (cards.length + 1 - MIN_SEQUENCE_SIZE)).flatMap
        (fun i => List.sublistsLen i cards)).map score_sequence) ~
      (Spec.runSubsets cards).map Spec.runScore := by
  have hperm : ((List.range' MIN_SEQUENCE_SIZE (cards.length + 1 - MIN_SEQUENCE_SIZE)).flatMap
      (fun i => List.sublistsLen i cards)) ~ Spec.runSubsets cards := by
    simp only [MIN_SEQUENCE_SIZE, Spec.runSubsets]
    exact flatMap_range'_sublistsLen_perm 3 cards
  have hmap := hperm.map score_sequence
  have heq : List.map score_sequence (Spec.runSubsets cards) =
      List.map Spec.runScore (Spec.runSubsets cards) :=
    List.map_congr_left (fun a _ => score_sequence_eq_runScore a)
  rw [heq] at hmap
  exact hmap

/-- Claim C5: for every candidate set, the run score computed by
`score_sequences` equals M times K, where M is the maximum spec run score
over all subsets of size at least 3 and K is the number of subsets achieving
it; the per-subset run test is the spec's sorted-ranks/consecutive-difference
criterion (`Spec.IsRun`) and a run of length L scores L
(`Spec.runScore`). -/
theorem claim_C5 (cards : List Card) (h3 : MIN_SEQUENCE_SIZE ≤ cards.length) :
    score_sequences cards = some (Spec.maxRunScore cards * Spec.maxRunCount cards) := by
  simp only [score_sequences]
  have hscores := score_sequences_scores_perm cards
  have hne : (((List.range' MIN_SEQUENCE_SIZE (cards.length + 1 - MIN_SEQUENCE_SIZE)).flatMap
      (fun i => List.sublistsLen i cards)).map score_sequence) ≠ [] := by
    simp only [ne_eq, List.map_eq_nil_iff, List.flatMap_eq_nil_iff, not_forall]
    refine ⟨MIN_SEQUENCE_SIZE, ?_, ?_⟩
    · rw [List.mem_range']
      exact ⟨0, by simp only [MIN_SEQUENCE_SIZE] at h3 ⊢; omega, by omega⟩
    · have hpos : 0 < (List.sublistsLen MIN_SEQUENCE_SIZE cards).length := by
        rw [List.length_sublistsLen]
        exact Nat.choose_pos h3
      exact List.ne_nil_of_length_pos hpos
  rw [max?_eq_some_foldl hne]
  have hmax : (((List.range' MIN_SEQUENCE_SIZE (cards.length + 1 - MIN_SEQUENCE_SIZE)).flatMap
      (fun i => List.sublistsLen i cards)).map score_sequence).foldl max 0 =
        Spec.maxRunScore cards := foldl_max_perm hscores 0
  have hcount : ∀ m, ((((List.range' MIN_SEQUENCE_SIZE
      (cards.length + 1 - MIN_SEQUENCE_SIZE)).flatMap
        (fun i => List.sublistsLen i cards)).map score_sequence).filter
          (fun s => s == m)).length =
        (((Spec.runSubsets cards).map Spec.runScore).filter (fun s => s == m)).length := by
    intro m
    rw [← List.countP_eq_length_filter, ← List.countP_eq_length_filter]
    exact hscores.countP_eq _
  simp only [hmax, hcount]
  simp only [Spec.maxRunCount, List.countP_eq_length_filter]

/-- Witness for C5 at the double-run candidate set
`[(9,s),(10,h),(11,c),(11,d),(1,s)]`: two subsets (9,10,J♣ and 9,10,J♦)
achieve the maximal run score 3, so the code returns 3 * 2 = 6. -/
theorem claim_C5_witness :
    MIN_SEQUENCE_SIZE ≤ ([((9 : Nat), 's'), (10, 'h'), (11, 'c'), (11, 'd'), (1, 's')] :
        List Card).length ∧
      score_sequences [((9 : Nat), 's'), (10, 'h'), (11, 'c'), (11, 'd'), (1, 's')] =
        some (Spec.maxRunScore [((9 : Nat), 's'), (10, 'h'), (11, 'c'), (11, 'd'), (1, 's')] *
          Spec.maxRunCount [((9 : Nat), 's'), (10, 'h'), (11, 'c'), (11, 'd'), (1, 's')]) :=
  ⟨by decide, claim_C5 [((9 : Nat), 's'), (10, 'h'), (11, 'c'), (11, 'd'), (1, 's')] (by decide)⟩

/-- The code's capping agrees with the spec's `min(rank, 10)`. -/
theorem capped_card_number_eq_min (n : Nat) : capped_card_number n = min n 10 := by
  simp only [capped_card_number, MAX_CARD_NUMBER, Nat.min_def]
  split_ifs <;> omega

/-- Claim C6: for every candidate set, the sum-to-fifteen score is 2 points
for each non-empty subset whose `min(rank, 10)` sum is exactly 15, nested
and overlapping subsets counted independently. -/
theorem claim_C6 (cards : List Card) :
    score_special_totals cards = (Spec.fifteenSubsets cards).length * 2 := by
  simp only [score_special_totals, Spec.fifteenSubsets]
  have hperm : ((List.range' 1 cards.length).flatMap (fun i => List.sublistsLen i cards)) ~
      cards.sublists.filter (fun t => decide (1 ≤ t.length)) := by
    have h := flatMap_range'_sublistsLen_perm 1 cards
    rwa [Nat.add_sub_cancel] at h
  have hpt : ∀ t : List Card,
      (((t.map (fun card => capped_card_number card.1)).sum == SPECIAL_TOTAL) &&
          decide (1 ≤ t.length)) =
        (!t.isEmpty && ((t.map (fun c => min c.1 10)).sum == 15)) := by
    intro t
    have hmap : t.map (fun card => capped_card_number card.1) =
        t.map (fun c => min c.1 10) :=
      List.map_congr_left (fun c _ => capped_card_number_eq_min c.1)
    rw [hmap]
    cases t with
    | nil => simp
    | cons a t' => simp [SPECIAL_TOTAL, Bool.and_comm]
  rw [← List.countP_eq_length_filter, ← List.countP_eq_length_filter, List.countP_map,
    hperm.countP_eq, List.countP_filter]
  have hfun : (fun t : List Card =>
      ((fun s => s == SPECIAL_TOTAL) ∘ fun card_sublist =>
        (card_sublist.map (fun card => capped_card_number card.1)).sum) t &&
          decide (1 ≤ t.length)) =
      (fun t : List Card => !t.isEmpty && ((t.map (fun c => min c.1 10)).sum == 15)) := by
    funext t
    exact hpt t
  rw [hfun]
  rfl

/-- The comprehension predicate of `score_pairs` coincides with the spec's
"2-element subset with both ranks equal". -/
theorem is_rank_pair_eq_spec (t : List Card) :
    (is_rank_pair t && decide (t.length = 2)) =
      decide (t.length = 2 ∧ ∀ a ∈ t, ∀ b ∈ t, a.1 = b.1) := by
  match t with
  | [] => simp [is_rank_pair]
  | [a] => simp [is_rank_pair]
  | [a, b] =>
    rw [Bool.eq_iff_iff]
    simp [is_rank_pair]
    omega
  | a :: b :: c :: rest =>
    simp only [is_rank_pair, Bool.false_and]
    symm
    rw [decide_eq_false_iff_not]
    rintro ⟨h2, -⟩
    simp at h2

/-- Claim C7: for every candidate set, the pair score is 2 points for each
unordered 2-element subset with equal ranks, and a uniformly-ranked set of k
cards scores exactly C(k,2) pairs. -/
theorem claim_C7 (cards : List Card) :
    score_pairs cards = (Spec.rankPairs cards).length * PAIR_SCORE ∧
      ∀ r : Nat, (∀ c ∈ cards, c.1 = r) →
        score_pairs cards = Nat.choose cards.length 2 * PAIR_SCORE := by
  constructor
  · simp only [score_pairs, Spec.rankPairs]
    congr 1
    rw [← List.countP_eq_length_filter, ← List.countP_eq_length_filter,
      (sublistsLen_perm_filter_sublists 2 cards).countP_eq, List.countP_filter]
    simp only [is_rank_pair_eq_spec]
  · intro r hall
    simp only [score_pairs]
    have hself : (List.sublistsLen 2 cards).filter is_rank_pair =
        List.sublistsLen 2 cards := by
      rw [List.filter_eq_self]
      intro t ht
      rcases List.mem_sublistsLen.1 ht with ⟨hsub, hlen⟩
      rcases List.length_eq_two.1 hlen with ⟨a, b, rfl⟩
      have ha : a ∈ cards := hsub.subset (by simp)
      have hb : b ∈ cards := hsub.subset (by simp)
      simp [is_rank_pair, hall a ha, hall b hb]
    rw [hself, List.length_sublistsLen]

/-- Witness for C7 at the four-fives hand: C(4,2) = 6 pairs, 12 points. -/
theorem claim_C7_witness :
    (∀ c ∈ ([((5 : Nat), 's'), (5, 'h'), (5, 'd'), (5, 'c')] : List Card), c.1 = 5) ∧
      score_pairs [((5 : Nat), 's'), (5, 'h'), (5, 'd'), (5, 'c')] =
        Nat.choose 4 2 * PAIR_SCORE :=
  ⟨by decide,
    (claim_C7 [((5 : Nat), 's'), (5, 'h'), (5, 'd'), (5, 'c')]).2 5 (by decide)⟩

/-! ### The sort order is total and transitive -/

theorem cardLt_trichotomy (a b : Card) : cardLt a b = true ∨ a = b ∨ cardLt b a = true := by
  simp only [cardLt, Bool.or_eq_true, Bool.and_eq_true, decide_eq_true_eq, beq_iff_eq]
  rcases Nat.lt_trichotomy a.1 b.1 with h | h | h
  · exact Or.inl (Or.inl h)
  · rcases lt_trichotomy a.2 b.2 with h2 | h2 | h2
    · exact Or.inl (Or.inr ⟨h, h2⟩)
    · exact Or.inr (Or.inl (Prod.ext h h2))
    · exact Or.inr (Or.inr (Or.inr ⟨h.symm, h2⟩))
  · exact Or.inr (Or.inr (Or.inl h))

theorem cardLt_trans {a b c : Card} (h1 : cardLt a b = true) (h2 : cardLt b c = true) :
    cardLt a c = true := by
  simp only [cardLt, Bool.or_eq_true, Bool.and_eq_true, decide_eq_true_eq, beq_iff_eq] at *
  rcases h1 with h1 | ⟨e1, l1⟩ <;> rcases h2 with h2 | ⟨e2, l2⟩
  · exact Or.inl (h1.trans h2)
  · exact Or.inl (by omega)
  · exact Or.inl (by omega)
  · exact Or.inr ⟨by omega, l1.trans l2⟩

theorem handLt_trichotomy : ∀ as bs : List Card, handLt as bs = true ∨ as = bs ∨ handLt bs as = true
  | [], [] => Or.inr (Or.inl rfl)
  | [], _ :: _ => Or.inl rfl
  | _ :: _, [] => Or.inr (Or.inr rfl)
  | a :: as, b :: bs => by
    simp only [handLt, Bool.or_eq_true, Bool.and_eq_true, beq_iff_eq, List.cons.injEq]
    rcases cardLt_trichotomy a b with h | h | h
    · exact Or.inl (Or.inl h)
    · subst h
      rcases handLt_trichotomy as bs with h2 | h2 | h2
      · exact Or.inl (Or.inr ⟨rfl, h2⟩)
      · exact Or.inr (Or.inl ⟨rfl, h2⟩)
      · exact Or.inr (Or.inr (Or.inr ⟨rfl, h2⟩))
    · exact Or.inr (Or.inr (Or.inl h))

theorem handLt_asymm : ∀ {as bs : List Card}, handLt as bs = true → handLt bs as = true → False
  | [], [], h1, _ => by simp [handLt] at h1
  | [], _ :: _, _, h2 => by simp [handLt] at h2
  | _ :: _, [], h1, _ => by simp [handLt] at h1
  | a :: as, b :: bs, h1, h2 => by
    simp only [handLt, Bool.or_eq_true, Bool.and_eq_true, beq_iff_eq] at h1 h2
    rcases h1 with h1 | ⟨e1, hh1⟩ <;> rcases h2 with h2 | ⟨e2, hh2⟩
    · have := cardLt_trans h1 h2
      simp only [cardLt, Bool.or_eq_true, Bool.and_eq_true, decide_eq_true_eq,
        beq_iff_eq] at this
      rcases this with h | ⟨-, h⟩
      · omega
      · exact absurd h (lt_irrefl _)
    · subst e2
      simp only [cardLt, Bool.or_eq_true, Bool.and_eq_true, decide_eq_true_eq,
        beq_iff_eq] at h1
      rcases h1 with h | ⟨-, h⟩
      · omega
      · exact absurd h (lt_irrefl _)
    · subst e1
      simp only [cardLt, Bool.or_eq_true, Bool.and_eq_true, decide_eq_true_eq,
        beq_iff_eq] at h2
      rcases h2 with h | ⟨-, h⟩
      · omega
      · exact absurd h (lt_irrefl _)
    · exact handLt_asymm hh1 hh2

theorem handLt_trans : ∀ {as bs cs : List Card},
    handLt as bs = true → handLt bs cs = true → handLt as cs = true
  | [], [], _, h1, _ => by simp [handLt] at h1
  | _ :: _, [], _, h1, _ => by simp [handLt] at h1
  | [], _ :: _, [], _, h2 => by simp [handLt] at h2
  | _ :: _, _ :: _, [], _, h2 => by simp [handLt] at h2
  | [], _ :: _, _ :: _, _, _ => rfl
  | a :: as, b :: bs, c :: cs, h1, h2 => by
    simp only [handLt, Bool.or_eq_true, Bool.and_eq_true, beq_iff_eq] at h1 h2 ⊢
    rcases h1 with h1 | ⟨e1, hh1⟩ <;> rcases h2 with h2 | ⟨e2, hh2⟩
    · exact Or.inl (cardLt_trans h1 h2)
    · exact Or.inl (e2 ▸ h1)
    · exact Or.inl (e1 ▸ h2)
    · exact Or.inr ⟨e1.trans e2, handLt_trans hh1 hh2⟩

theorem scoredLe_total (p q : Nat × List Card) : scoredLe p q ∨ scoredLe q p := by
  unfold scoredLe
  rcases Nat.lt_trichotomy p.1 q.1 with h | h | h
  · exact Or.inl (Or.inl h)
  · rcases handLt_trichotomy p.2 q.2 with h2 | h2 | h2
    · exact Or.inl (Or.inr ⟨h, Or.inr h2⟩)
    · exact Or.inl (Or.inr ⟨h, Or.inl h2⟩)
    · exact Or.inr (Or.inr ⟨h.symm, Or.inr h2⟩)
  · exact Or.inr (Or.inl h)

theorem scoredLe_trans (p q r : Nat × List Card) (h1 : scoredLe p q) (h2 : scoredLe q r) :
    scoredLe p r := by
  unfold scoredLe at *
  rcases h1 with h1 | ⟨e1, hh1⟩
  · rcases h2 with h2 | ⟨e2, -⟩
    · exact Or.inl (h1.trans h2)
    · exact Or.inl (e2 ▸ h1)
  · rcases h2 with h2 | ⟨e2, hh2⟩
    · exact Or.inl (e1 ▸ h2)
    · refine Or.inr ⟨e1.trans e2, ?_⟩
      rcases hh1 with he1 | hl1
      · rcases hh2 with he2 | hl2
        · exact Or.inl (he1.trans he2)
        · exact Or.inr (he1 ▸ hl2)
      · rcases hh2 with he2 | hl2
        · exact Or.inr (he2 ▸ hl1)
        · exact Or.inr (handLt_trans hl1 hl2)

/-! ### On validated input every evaluator returns, and `score` succeeds -/

theorem score_his_nibs_isSome {l : List Card} (h : l ≠ []) :
    ∃ n, score_his_nibs l = some n := by
  unfold score_his_nibs
  cases hg : l.getLast? with
  | none => exact absurd (List.getLast?_eq_none_iff.1 hg) h
  | some t => exact ⟨_, rfl⟩

theorem score_flush_isSome {l : List Card} (h : l ≠ []) :
    ∃ n, score_flush l = some n := by
  unfold score_flush
  cases hg : l.getLast? with
  | none => exact absurd (List.getLast?_eq_none_iff.1 hg) h
  | some t =>
    dsimp only
    split_ifs <;> exact ⟨_, rfl⟩

theorem score_sequences_scores_ne_nil {cards : List Card}
    (h3 : MIN_SEQUENCE_SIZE ≤ cards.length) :
    (((List.range' MIN_SEQUENCE_SIZE (cards.length + 1 - MIN_SEQUENCE_SIZE)).flatMap
      (fun i => List.sublistsLen i cards)).map score_sequence) ≠ [] := by
  simp only [ne_eq, List.map_eq_nil_iff, List.flatMap_eq_nil_iff, not_forall]
  refine ⟨MIN_SEQUENCE_SIZE, ?_, ?_⟩
  · rw [List.mem_range']
    exact ⟨0, by simp only [MIN_SEQUENCE_SIZE] at h3 ⊢; omega, by omega⟩
  · have hpos : 0 < (List.sublistsLen MIN_SEQUENCE_SIZE cards).length := by
      rw [List.length_sublistsLen]
      exact Nat.choose_pos h3
    exact List.ne_nil_of_length_pos hpos

theorem score_sequences_isSome {l : List Card} (h3 : MIN_SEQUENCE_SIZE ≤ l.length) :
    ∃ n, score_sequences l = some n := by
  simp only [score_sequences]
  rw [max?_eq_some_foldl (score_sequences_scores_ne_nil h3)]
  exact ⟨_, rfl⟩

theorem score_min_card_combo_isSome {l : List Card} (h3 : MIN_SEQUENCE_SIZE ≤ l.length)
    (top : Option Card) : ∃ n, score_min_card_combo l top = some n := by
  have hne : l ≠ [] := by
    intro e
    rw [e] at h3
    simp [MIN_SEQUENCE_SIZE] at h3
  cases top with
  | none =>
    obtain ⟨f, hf⟩ := score_flush_isSome hne
    obtain ⟨s, hs⟩ := score_sequences_isSome h3
    exact ⟨f + s + score_pairs l + score_special_totals l,
      by simp only [score_min_card_combo, hf, hs]⟩
  | some t =>
    have hne' : l ++ [t] ≠ [] := by simp
    have h3' : MIN_SEQUENCE_SIZE ≤ (l ++ [t]).length := by
      rw [List.length_append]
      simp only [MIN_SEQUENCE_SIZE] at h3 ⊢
      simp
      omega
    obtain ⟨n, hn⟩ := score_his_nibs_isSome hne'
    obtain ⟨f, hf⟩ := score_flush_isSome hne'
    obtain ⟨s, hs⟩ := score_sequences_isSome h3'
    exact ⟨n + f + s + score_pairs (l ++ [t]) + score_special_totals (l ++ [t]),
      by simp only [score_min_card_combo, hn, hf, hs]⟩

theorem score_each_combo_eq_some {top : Option Card} :
    ∀ {combos : List (List Card)},
      (∀ h ∈ combos, ∃ n, score_min_card_combo h top = some n) →
      ∃ scored, score_each_combo top combos = some scored ∧
        scored.map Prod.snd = combos ∧
        ∀ p ∈ scored, score_min_card_combo p.2 top = some p.1 := by
  intro combos
  induction combos with
  | nil => exact fun _ => ⟨[], rfl, rfl, by simp⟩
  | cons h hs ih =>
    intro hall
    obtain ⟨n, hn⟩ := hall h (by simp)
    obtain ⟨scored, hsc, hmap, hmem⟩ := ih (fun h' hh' => hall h' (by simp [hh']))
    refine ⟨(n, h) :: scored, ?_, by simp [hmap], ?_⟩
    · simp only [score_each_combo, hn, hsc]
    · intro p hp
      rcases List.mem_cons.1 hp with rfl | hp
      · exact hn
      · exact hmem p hp

theorem nodup_iff_dedup_length {α : Type} [DecidableEq α] {l : List α} :
    l.Nodup ↔ l.dedup.length = l.length := by
  constructor
  · intro h
    rw [List.dedup_eq_self.2 h]
  · intro h
    rw [← (l.dedup_sublist).eq_of_length h]
    exact l.nodup_dedup

/-- On a valid input, `score` runs the happy path: every combination gets a
score and the sorted list is returned. -/
theorem score_ok_of_valid {cards : List Card} {top : Option Card}
    (hv : validInput cards top) :
    ∃ scored, score_each_combo top (List.sublistsLen MIN_HAND_SIZE cards) = some scored ∧
      score cards top = .ok (List.insertionSort scoredLe scored, top) ∧
      scored.map Prod.snd = List.sublistsLen MIN_HAND_SIZE cards ∧
      ∀ p ∈ scored, score_min_card_combo p.2 top = some p.1 := by
  obtain ⟨hall, hlen, hnd, htop⟩ := hv
  have hcombos : ∀ h ∈ List.sublistsLen MIN_HAND_SIZE cards,
      ∃ n, score_min_card_combo h top = some n := by
    intro h hh
    have hlh := List.length_of_sublistsLen hh
    exact score_min_card_combo_isSome
      (by simp only [MIN_SEQUENCE_SIZE, MIN_HAND_SIZE] at hlh ⊢; omega) top
  obtain ⟨scored, hsc, hmap, hmem⟩ := score_each_combo_eq_some hcombos
  refine ⟨scored, hsc, ?_, hmap, hmem⟩
  unfold score
  rw [if_neg (not_not_intro hall), if_neg (by omega : ¬ cards.length < MIN_HAND_SIZE),
    if_neg (fun hne => hne ((nodup_iff_dedup_length.1 hnd).symm))]
  cases top with
  | none =>
    show score_combos_sorted cards none = _
    unfold score_combos_sorted
    rw [hsc]
  | some t =>
    obtain ⟨htall, htmem⟩ : t ∈ ALL_CARDS ∧ t ∉ cards := htop
    show (if t ∉ ALL_CARDS then _ else if t ∈ cards then _ else
      score_combos_sorted cards (some t)) = _
    rw [if_neg (not_not_intro htall), if_neg htmem]
    unfold score_combos_sorted
    rw [hsc]

/-- Claim C2: on every input passing the §4.1 validity checks the whole
pipeline returns normally — `score` yields a result and every candidate
`MIN_HAND_SIZE`-card combination is scored without an evaluator exception
(each `some`); in particular `score_sequences`' maximum is taken over a
non-empty score list because every candidate set has at least 4 cards. -/
theorem claim_C2 (cards : List Card) (top : Option Card) (hv : validInput cards top) :
    (∃ res, score cards top = .ok res) ∧
      ∀ combo ∈ List.sublistsLen MIN_HAND_SIZE cards,
        ∃ n, score_min_card_combo combo top = some n := by
  obtain ⟨scored, -, hok, -, -⟩ := score_ok_of_valid hv
  refine ⟨⟨_, hok⟩, ?_⟩
  intro combo hc
  have hlh := List.length_of_sublistsLen hc
  exact score_min_card_combo_isSome
    (by simp only [MIN_SEQUENCE_SIZE, MIN_HAND_SIZE] at hlh ⊢; omega) top

/-- Witness for C2 at a concrete valid input. -/
theorem claim_C2_witness :
    validInput [((1 : Nat), 's'), (2, 'h'), (3, 'd'), (4, 'c')] (some (5, 's')) ∧
      ((∃ res, score [((1 : Nat), 's'), (2, 'h'), (3, 'd'), (4, 'c')] (some (5, 's')) =
          .ok res) ∧
        ∀ combo ∈ List.sublistsLen MIN_HAND_SIZE
            [((1 : Nat), 's'), (2, 'h'), (3, 'd'), (4, 'c')],
          ∃ n, score_min_card_combo combo (some (5, 's')) = some n) :=
  ⟨by decide, claim_C2 [((1 : Nat), 's'), (2, 'h'), (3, 'd'), (4, 'c')] (some (5, 's'))
    (by decide)⟩

/-- Claim C3: `score` fails exactly when a validity condition is violated —
a hand card outside the 52-card universe, fewer than `MIN_HAND_SIZE` cards,
a duplicated hand card, or a supplied top-of-deck card that is unknown or
already in the hand.  The `Except` result also shows that no scored list is
produced in the error case; in the embedding, as in the source, all checks
run before any sub-hand enumeration. -/
theorem claim_C3 (cards : List Card) (top : Option Card) :
    (∃ e, score cards top = .error e) ↔
      ((∃ c ∈ cards, c ∉ ALL_CARDS) ∨ cards.length < MIN_HAND_SIZE ∨ ¬ cards.Nodup ∨
        (∃ t, top = some t ∧ (t ∉ ALL_CARDS ∨ t ∈ cards))) := by
  constructor
  · rintro ⟨e, he⟩
    by_contra hno
    push_neg at hno
    obtain ⟨h1, h2, h3, h4⟩ := hno
    have hv : validInput cards top := by
      refine ⟨h1, by omega, h3, ?_⟩
      cases top with
      | none => trivial
      | some t =>
        have ht := h4 t rfl
        exact (⟨ht.1, ht.2⟩ : t ∈ ALL_CARDS ∧ t ∉ cards)
    obtain ⟨scored, -, hok, -, -⟩ := score_ok_of_valid hv
    rw [hok] at he
    exact Except.noConfusion he
  · intro hbad
    by_cases h1 : ∀ c ∈ cards, c ∈ ALL_CARDS
    case neg =>
      exact ⟨_, by unfold score; rw [if_pos h1]⟩
    by_cases h2 : cards.length < MIN_HAND_SIZE
    case pos =>
      exact ⟨_, by unfold score; rw [if_neg (not_not_intro h1), if_pos h2]⟩
    by_cases h3 : cards.Nodup
    case neg =>
      exact ⟨_, by
        unfold score
        rw [if_neg (not_not_intro h1), if_neg h2,
          if_pos (fun he => h3 (nodup_iff_dedup_length.2 he.symm))]⟩
    cases top with
    | none =>
      exfalso
      rcases hbad with ⟨c, hc, hcall⟩ | hlen | hnd | ⟨t, ht, -⟩
      · exact hcall (h1 c hc)
      · exact h2 hlen
      · exact hnd h3
      · exact Option.noConfusion ht
    | some t =>
      by_cases h4 : t ∈ ALL_CARDS
      · by_cases h5 : t ∈ cards
        · exact ⟨_, by
            unfold score
            rw [if_neg (not_not_intro h1), if_neg h2,
              if_neg (fun he => he ((nodup_iff_dedup_length.1 h3).symm))]
            show (if t ∉ ALL_CARDS then _ else if t ∈ cards then _ else _) = _
            rw [if_neg (not_not_intro h4), if_pos h5]⟩
        · exfalso
          rcases hbad with ⟨c, hc, hcall⟩ | hlen | hnd | ⟨t', ht', hor⟩
          · exact hcall (h1 c hc)
          · exact h2 hlen
          · exact hnd h3
          · obtain rfl : t = t' := Option.some.inj ht'
            rcases hor with h | h
            · exact h h4
            · exact h5 h
      · exact ⟨_, by
          unfold score
          rw [if_neg (not_not_intro h1), if_neg h2,
            if_neg (fun he => he ((nodup_iff_dedup_length.1 h3).symm))]
          show (if t ∉ ALL_CARDS then _ else if t ∈ cards then _ else _) = _
          rw [if_pos h4]⟩

/-- Claim C4: on a valid hand of n cards, `score` returns one `(score,
sub-hand)` pair for each of the C(n,4) size-4 combinations — each scored
via `score_min_card_combo` with the top-of-deck card — sorted ascending by
score and hence non-empty. -/
theorem claim_C4 (cards : List Card) (top : Option Card) (hv : validInput cards top) :
    ∃ res, score cards top = .ok (res, top) ∧
      res.length = Nat.choose cards.length MIN_HAND_SIZE ∧
      res ≠ [] ∧
      List.Pairwise (fun p q : Nat × List Card => p.1 ≤ q.1) res ∧
      res.map Prod.snd ~ List.sublistsLen MIN_HAND_SIZE cards ∧
      ∀ p ∈ res, score_min_card_combo p.2 top = some p.1 := by
  obtain ⟨scored, -, hok, hmap, hmem⟩ := score_ok_of_valid hv
  have hperm : List.insertionSort scoredLe scored ~ scored := List.perm_insertionSort _ _
  have hlen : (List.insertionSort scoredLe scored).length =
      Nat.choose cards.length MIN_HAND_SIZE := by
    rw [hperm.length_eq, ← List.length_map scored Prod.snd, hmap, List.length_sublistsLen]
  refine ⟨List.insertionSort scoredLe scored, hok, hlen, ?_, ?_, ?_, ?_⟩
  · apply List.ne_nil_of_length_pos
    rw [hlen]
    exact Nat.choose_pos hv.2.1
  · haveI : IsTotal (Nat × List Card) scoredLe := ⟨scoredLe_total⟩
    haveI : IsTrans (Nat × List Card) scoredLe := ⟨fun p q r => scoredLe_trans p q r⟩
    refine (List.sorted_insertionSort scoredLe scored).imp ?_
    intro p q hpq
    rcases hpq with h | ⟨h, -⟩
    · exact Nat.le_of_lt h
    · exact Nat.le_of_eq h
  · rw [← hmap]
    exact hperm.map Prod.snd
  · intro p hp
    exact hmem p (hperm.subset hp)

/-- Witness for C4 at a concrete valid 5-card input. -/
theorem claim_C4_witness :
    validInput [((1 : Nat), 's'), (1, 'h'), (3, 'c'), (3, 'd'), (13, 's')] none ∧
      ∃ res, score [((1 : Nat), 's'), (1, 'h'), (3, 'c'), (3, 'd'), (13, 's')] none =
          .ok (res, none) ∧
        res.length = Nat.choose 5 MIN_HAND_SIZE ∧
        res ≠ [] ∧
        List.Pairwise (fun p q : Nat × List Card => p.1 ≤ q.1) res ∧
        res.map Prod.snd ~ List.sublistsLen MIN_HAND_SIZE
          [((1 : Nat), 's'), (1, 'h'), (3, 'c'), (3, 'd'), (13, 's')] ∧
        ∀ p ∈ res, score_min_card_combo p.2 none = some p.1 :=
  ⟨by decide,
    claim_C4 [((1 : Nat), 's'), (1, 'h'), (3, 'c'), (3, 'd'), (13, 's')] none (by decide)⟩

/-- Claim C10: the sort in `score` compares whole `(score, sub-hand)` pairs,
so sub-hands with equal scores come out in lexicographic order of the hand
tuples (`handLt` is Python tuple comparison on card lists): every returned
list is pairwise ordered by score-then-hand. -/
theorem claim_C10 (cards : List Card) (top : Option Card)
    (res : List (Nat × List Card)) (c : Option Card)
    (h : score cards top = .ok (res, c)) :
    List.Pairwise (fun p q : Nat × List Card =>
      p.1 < q.1 ∨ (p.1 = q.1 ∧ (p.2 = q.2 ∨ handLt p.2 q.2 = true))) res := by
  haveI : IsTotal (Nat × List Card) scoredLe := ⟨scoredLe_total⟩
  haveI : IsTrans (Nat × List Card) scoredLe := ⟨fun p q r => scoredLe_trans p q r⟩
  have main : ∀ top', score_combos_sorted cards top' = .ok (res, c) →
      List.Pairwise (fun p q : Nat × List Card =>
        p.1 < q.1 ∨ (p.1 = q.1 ∧ (p.2 = q.2 ∨ handLt p.2 q.2 = true))) res := by
    intro top' h'
    unfold score_combos_sorted at h'
    cases hsc : score_each_combo top' (List.sublistsLen MIN_HAND_SIZE cards) with
    | none =>
      rw [hsc] at h'
      exact Except.noConfusion h'
    | some scored =>
      rw [hsc] at h'
      simp only [Except.ok.injEq, Prod.mk.injEq] at h'
      rw [← h'.1]
      exact List.sorted_insertionSort scoredLe scored
  unfold score at h
  split at h
  · exact Except.noConfusion h
  split at h
  · exact Except.noConfusion h
  split at h
  · exact Except.noConfusion h
  split at h
  · split at h
    · exact Except.noConfusion h
    split at h
    · exact Except.noConfusion h
    · exact main _ h
  · exact main _ h

/-- Witness for C10 at a 5-card hand with score ties: the three sub-hands
scoring 4 and the two scoring 2 appear in lexicographic order of their card
tuples. -/
theorem claim_C10_witness :
    score [((1 : Nat), 's'), (1, 'h'), (3, 'c'), (3, 'd'), (13, 's')] none =
        .ok ([(2, [(1, 'h'), (3, 'c'), (3, 'd'), (13, 's')]),
              (2, [(1, 's'), (3, 'c'), (3, 'd'), (13, 's')]),
              (4, [(1, 's'), (1, 'h'), (3, 'c'), (3, 'd')]),
              (4, [(1, 's'), (1, 'h'), (3, 'c'), (13, 's')]),
              (4, [(1, 's'), (1, 'h'), (3, 'd'), (13, 's')])], none) ∧
      List.Pairwise (fun p q : Nat × List Card =>
        p.1 < q.1 ∨ (p.1 = q.1 ∧ (p.2 = q.2 ∨ handLt p.2 q.2 = true)))
        [((2 : Nat), [((1 : Nat), 'h'), (3, 'c'), (3, 'd'), (13, 's')]),
         (2, [(1, 's'), (3, 'c'), (3, 'd'), (13, 's')]),
         (4, [(1, 's'), (1, 'h'), (3, 'c'), (3, 'd')]),
         (4, [(1, 's'), (1, 'h'), (3, 'c'), (13, 's')]),
         (4, [(1, 's'), (1, 'h'), (3, 'd'), (13, 's')])] :=
  ⟨by rfl,
    claim_C10 [((1 : Nat), 's'), (1, 'h'), (3, 'c'), (3, 'd'), (13, 's')] none
      [((2 : Nat), [((1 : Nat), 'h'), (3, 'c'), (3, 'd'), (13, 's')]),
       (2, [(1, 's'), (3, 'c'), (3, 'd'), (13, 's')]),
       (4, [(1, 's'), (1, 'h'), (3, 'c'), (3, 'd')]),
       (4, [(1, 's'), (1, 'h'), (3, 'c'), (13, 's')]),
       (4, [(1, 's'), (1, 'h'), (3, 'd'), (13, 's')])] none (by rfl)⟩

/-- Claim C1 evaluated on the code: a uniformly-suited 4-card hand with NO
top-of-deck card receives 0 flush points (total score 0), because
`score_min_card_combo` passes the bare hand to `score_flush`, which treats
the hand's last card as the top-of-deck card and sees only 3 other cards —
fewer than `MIN_FLUSH_SIZE`.  With a (differently-suited) top-of-deck card
present the same hand scores the 4 flush points the spec promises, so the
no-cut behaviour contradicts spec §4.6. -/
theorem claim_C1_flush_without_cut :
    score_flush [((2 : Nat), 's'), (4, 's'), (6, 's'), (8, 's')] = some 0 ∧
      score_min_card_combo [((2 : Nat), 's'), (4, 's'), (6, 's'), (8, 's')] none = some 0 ∧
      score [((2 : Nat), 's'), (4, 's'), (6, 's'), (8, 's')] none =
        .ok ([(0, [(2, 's'), (4, 's'), (6, 's'), (8, 's')])], none) ∧
      score [((2 : Nat), 's'), (4, 's'), (6, 's'), (8, 's')] (some (10, 'c')) =
        .ok ([(4, [(2, 's'), (4, 's'), (6, 's'), (8, 's')])], some (10, 'c')) :=
  ⟨by rfl, by rfl, by rfl, by rfl⟩

/-- Claim C8: the maximal cribbage hand — three fives and a jack with the
matching fifth five cut — scores exactly 29: 12 from six pairs, 16 from
eight fifteens, 1 from his nibs. -/
theorem claim_C8 :
    score [((5 : Nat), 's'), (5, 'h'), (5, 'd'), (11, 'c')] (some (5, 'c')) =
        .ok ([(29, [(5, 's'), (5, 'h'), (5, 'd'), (11, 'c')])], some (5, 'c')) ∧
      score_pairs [((5 : Nat), 's'), (5, 'h'), (5, 'd'), (11, 'c'), (5, 'c')] = 12 ∧
      score_special_totals [((5 : Nat), 's'), (5, 'h'), (5, 'd'), (11, 'c'), (5, 'c')] = 16 ∧
      score_his_nibs [((5 : Nat), 's'), (5, 'h'), (5, 'd'), (11, 'c'), (5, 'c')] = some 1 :=
  ⟨by rfl, by rfl, by rfl, by rfl⟩

/-! ### Permutation invariance (claim C9) -/

/-- Mapping a function that only depends on the multiset of a length-`n`
sublist over all length-`n` sublists is permutation-invariant (up to
permutation of the image list). -/
theorem sublistsLen_map_perm {α β : Type} {l l' : List α} (h : l ~ l') :
    ∀ (n : Nat) (f : List α → β), (∀ t t', t.length = n → t ~ t' → f t = f t') →
      (List.sublistsLen n l).map f ~ (List.sublistsLen n l').map f := by
  induction h with
  | nil => exact fun n f _ => List.Perm.refl _
  | cons x h ih =>
    intro n f hf
    match n with
    | 0 => simp
    | n + 1 =>
      rw [List.sublistsLen_succ_cons, List.sublistsLen_succ_cons, List.map_append,
        List.map_append, List.map_map, List.map_map]
      exact (ih (n + 1) f hf).append
        (ih n (f ∘ (x :: ·)) (fun t t' hl ht => hf _ _ (by simp [hl]) (ht.cons x)))
  | swap x y l =>
    intro n f hf
    match n with
    | 0 => simp
    | 1 =>
      simp only [List.sublistsLen_succ_cons, List.sublistsLen_zero, List.map_append,
        List.map_map, List.map_cons, List.map_nil, List.append_assoc]
      refine List.Perm.append_left _ ?_
      simp only [Function.comp_apply, List.singleton_append]
      exact List.Perm.swap _ _ _
    | n + 2 =>
      simp only [List.sublistsLen_succ_cons, List.map_append, List.map_map,
        List.append_assoc]
      refine List.Perm.append_left _ ?_
      have hD : (List.sublistsLen n l).map (f ∘ List.cons y ∘ List.cons x) =
          (List.sublistsLen n l).map (f ∘ List.cons x ∘ List.cons y) := by
        refine List.map_congr_left ?_
        intro t ht
        have hlt := List.length_of_sublistsLen ht
        exact hf _ _ (by simp [hlt]) (List.Perm.swap x y t)
      rw [hD]
      rw [← List.append_assoc, ← List.append_assoc]
      exact (List.perm_append_comm).append_right _
  | trans h1 h2 ih1 ih2 =>
    exact fun n f hf => (ih1 n f hf).trans (ih2 n f hf)

/-- The size-graded enumeration in `score_sequences`/`score_special_totals`
is permutation-invariant after mapping a multiset-level function. -/
theorem flatMap_sublistsLen_map_perm {α β : Type} {l l' : List α} (h : l ~ l')
    (ns : List Nat) (f : List α → β) (hf : ∀ t t', t ~ t' → f t = f t') :
    ((ns.flatMap (fun i => List.sublistsLen i l)).map f) ~
      ((ns.flatMap (fun i => List.sublistsLen i l')).map f) := by
  induction ns with
  | nil => simp
  | cons m ms ih =>
    simp only [List.flatMap_cons, List.map_append]
    exact (sublistsLen_map_perm h m f (fun t t' _ ht => hf t t' ht)).append ih

theorem countP_eq_countP_map {α : Type} (p : α → Bool) (s : List α) :
    s.countP p = (s.map p).countP (fun b => b) := by
  rw [List.countP_map]
  rfl

theorem countP_sublistsLen_perm {α : Type} {l l' : List α} (h : l ~ l') (n : Nat)
    (p : List α → Bool) (hp : ∀ a b, a ~ b → p a = p b) :
    (List.sublistsLen n l).countP p = (List.sublistsLen n l').countP p := by
  rw [countP_eq_countP_map p (List.sublistsLen n l),
    countP_eq_countP_map p (List.sublistsLen n l')]
  exact (sublistsLen_map_perm h n p (fun t t' _ ht => hp t t' ht)).countP_eq _

theorem score_sequence_perm {t t' : List Card} (h : t ~ t') :
    score_sequence t = score_sequence t' := by
  have hlen := h.length_eq
  have hsorted : List.insertionSort (· ≤ ·) (t.map Prod.fst) =
      List.insertionSort (· ≤ ·) (t'.map Prod.fst) :=
    List.eq_of_perm_of_sorted
      (((List.perm_insertionSort _ _).trans (h.map _)).trans
        (List.perm_insertionSort _ _).symm)
      (List.sorted_insertionSort _ _) (List.sorted_insertionSort _ _)
  simp only [score_sequence, hlen, hsorted]

theorem score_sequences_perm {t t' : List Card} (h : t ~ t') :
    score_sequences t = score_sequences t' := by
  have hlen := h.length_eq
  simp only [score_sequences, hlen]
  have hscores := flatMap_sublistsLen_map_perm h
    (List.range' MIN_SEQUENCE_SIZE (t'.length + 1 - MIN_SEQUENCE_SIZE)) score_sequence
    (fun a b hab => score_sequence_perm hab)
  rw [max?_perm hscores]
  cases hm : (((List.range' MIN_SEQUENCE_SIZE (t'.length + 1 - MIN_SEQUENCE_SIZE)).flatMap
      (fun i => List.sublistsLen i t')).map score_sequence).max? with
  | none => rfl
  | some m =>
    dsimp only
    rw [(hscores.filter (fun s => s == m)).length_eq]

/-- The pair predicate depends only on the multiset of the 2-card list. -/
theorem is_rank_pair_perm {a b : List Card} (h : a ~ b) :
    is_rank_pair a = is_rank_pair b := by
  have hlen := h.length_eq
  by_cases h2 : a.length = 2
  · obtain ⟨x, y, rfl⟩ := List.length_eq_two.1 h2
    obtain ⟨u, v, rfl⟩ := List.length_eq_two.1 (hlen ▸ h2)
    have hr : ([x.1, y.1] : List Nat) ~ [u.1, v.1] := by simpa using h.map Prod.fst
    have hd := hr.dedup.length_eq
    have e : ∀ m n : Nat, (([m, n] : List Nat).dedup.length = 1) ↔ m = n := by
      intro m n
      by_cases hmn : m = n
      · subst hmn
        rw [List.dedup_cons_of_mem (by simp)]
        simp
      · rw [List.dedup_cons_of_not_mem (by simp [hmn])]
        simp [hmn]
    simp only [is_rank_pair]
    rw [Bool.eq_iff_iff]
    simp only [beq_iff_eq]
    rw [← e x.1 y.1, ← e u.1 v.1, hd]
  · have h2' : b.length ≠ 2 := hlen ▸ h2
    have e : ∀ s : List Card, s.length ≠ 2 → is_rank_pair s = false := by
      intro s hs
      match s with
      | [] => rfl
      | [x] => rfl
      | [x, y] => exact absurd rfl hs
      | x :: y :: z :: rest => rfl
    rw [e a h2, e b h2']

theorem score_pairs_perm {t t' : List Card} (h : t ~ t') : score_pairs t = score_pairs t' := by
  simp only [score_pairs]
  congr 1
  rw [← List.countP_eq_length_filter, ← List.countP_eq_length_filter]
  exact countP_sublistsLen_perm h 2 is_rank_pair (fun a b hab => is_rank_pair_perm hab)

theorem score_special_totals_perm {t t' : List Card} (h : t ~ t') :
    score_special_totals t = score_special_totals t' := by
  have hlen := h.length_eq
  simp only [score_special_totals, hlen]
  congr 1
  have htotals := flatMap_sublistsLen_map_perm h (List.range' 1 t'.length)
    (fun card_sublist => (card_sublist.map (fun card => capped_card_number card.1)).sum)
    (fun a b hab => (hab.map (fun card => capped_card_number card.1)).sum_eq)
  exact (htotals.filter (fun s => s == SPECIAL_TOTAL)).length_eq

theorem score_his_nibs_append_perm {c c' : List Card} (h : c ~ c') (t : Card) :
    score_his_nibs (c ++ [t]) = score_his_nibs (c' ++ [t]) := by
  simp only [score_his_nibs, List.getLast?_concat, List.dropLast_concat]
  rw [(h.filter (fun card => card.1 == 11 && card.2 == t.2)).length_eq]

theorem score_flush_append_perm {c c' : List Card} (h : c ~ c') (t : Card) :
    score_flush (c ++ [t]) = score_flush (c' ++ [t]) := by
  simp only [score_flush, List.getLast?_concat, List.dropLast_concat]
  have hlen := h.length_eq
  rw [hlen]
  by_cases hc : c'.length < MIN_FLUSH_SIZE
  · rw [if_pos hc, if_pos hc]
  · rw [if_neg hc, if_neg hc]
    have hsuits : (c.map Prod.snd).dedup ~ (c'.map Prod.snd).dedup := (h.map _).dedup
    by_cases h1 : ((c.map Prod.snd).dedup).length = 1
    · have h1' : ((c'.map Prod.snd).dedup).length = 1 := by
        rw [← hsuits.length_eq]
        exact h1
      rw [if_pos h1, if_pos h1']
      by_cases h2 : (c.map Prod.snd).dedup = [t.2]
      · have h2' : (c'.map Prod.snd).dedup = [t.2] :=
          List.perm_singleton.1 (h2 ▸ hsuits.symm)
        rw [if_pos h2, if_pos h2']
      · have h2' : ¬ (c'.map Prod.snd).dedup = [t.2] :=
          fun hh => h2 (List.perm_singleton.1 (hh ▸ hsuits))
        rw [if_neg h2, if_neg h2']
    · have h1' : ¬ ((c'.map Prod.snd).dedup).length = 1 := by
        rw [← hsuits.length_eq]
        exact h1
      rw [if_neg h1, if_neg h1']

/-- A list of at most `MIN_FLUSH_SIZE` cards with no appended top-of-deck
card can never earn flush points: its last card is consumed as the
top-of-deck card, leaving too few others. -/
theorem score_flush_of_short {l : List Card} (hne : l ≠ [])
    (hlen : l.length ≤ MIN_FLUSH_SIZE) : score_flush l = some 0 := by
  unfold score_flush
  cases hg : l.getLast? with
  | none => exact absurd (List.getLast?_eq_none_iff.1 hg) hne
  | some t =>
    dsimp only
    rw [if_pos]
    rw [List.length_dropLast]
    have hl : 0 < l.length := List.length_pos.2 hne
    simp only [MIN_FLUSH_SIZE] at hlen ⊢
    omega

/-- The score of a minimum-size combination depends only on the multiset of
its cards. -/
theorem score_min_card_combo_perm {c c' : List Card} (h : c ~ c')
    (hlen : c.length = MIN_HAND_SIZE) (top : Option Card) :
    score_min_card_combo c top = score_min_card_combo c' top := by
  have hne : c ≠ [] := by
    intro e
    rw [e] at hlen
    simp [MIN_HAND_SIZE] at hlen
  have hne' : c' ≠ [] := by
    intro e
    rw [e] at h
    exact hne h.eq_nil
  cases top with
  | none =>
    simp only [score_min_card_combo]
    rw [score_flush_of_short hne (by simp [hlen, MIN_HAND_SIZE, MIN_FLUSH_SIZE]),
      score_flush_of_short hne' (by
        rw [← h.length_eq, hlen]
        simp [MIN_HAND_SIZE, MIN_FLUSH_SIZE]),
      score_sequences_perm h, score_pairs_perm h, score_special_totals_perm h]
  | some t =>
    have happ : c ++ [t] ~ c' ++ [t] := h.append_right [t]
    simp only [score_min_card_combo]
    rw [score_his_nibs_append_perm h t, score_flush_append_perm h t,
      score_sequences_perm happ, score_pairs_perm happ, score_special_totals_perm happ]

/-- Each scored element of `score_each_combo`'s output records exactly the
combination and its `score_min_card_combo` value. -/
theorem score_each_combo_map {top : Option Card} :
    ∀ {combos : List (List Card)} {scored : List (Nat × List Card)},
      score_each_combo top combos = some scored →
      scored.map (fun p => ((some p.1 : Option Nat), (↑p.2 : Multiset Card))) =
        combos.map (fun hcombo => (score_min_card_combo hcombo top,
          (↑hcombo : Multiset Card))) := by
  intro combos
  induction combos with
  | nil =>
    intro scored h
    obtain rfl : ([] : List (Nat × List Card)) = scored := Option.some.inj h
    rfl
  | cons hd tl ih =>
    intro scored h
    unfold score_each_combo at h
    cases hmc : score_min_card_combo hd top with
    | none =>
      rw [hmc] at h
      exact Option.noConfusion h
    | some n =>
      rw [hmc] at h
      cases hrest : score_each_combo top tl with
      | none =>
        rw [hrest] at h
        exact Option.noConfusion h
      | some scoredtl =>
        rw [hrest] at h
        obtain rfl : (n, hd) :: scoredtl = scored := Option.some.inj h
        simp only [List.map_cons]
        rw [ih hrest, hmc]

theorem coe_map_multiset {α β : Type} (f : α → β) (l : List α) :
    (↑(l.map f) : Multiset β) = Multiset.map f ↑l := rfl

/-- On two valid permuted hands, `score` produces the same multiset of
`(score, sub-hand-as-multiset)` pairs and the same top-of-deck card. -/
theorem score_map_multiset_eq_of_valid {hand hand' : List Card} {top : Option Card}
    (hp : hand ~ hand') (hv : validInput hand top) (hv' : validInput hand' top) :
    (score hand top).map (fun r =>
        ((↑(r.1.map (fun p => (p.1, (↑p.2 : Multiset Card)))) :
          Multiset (Nat × Multiset Card)), r.2)) =
      (score hand' top).map (fun r =>
        ((↑(r.1.map (fun p => (p.1, (↑p.2 : Multiset Card)))) :
          Multiset (Nat × Multiset Card)), r.2)) := by
  obtain ⟨scored, hsc, hok, -, -⟩ := score_ok_of_valid hv
  obtain ⟨scored', hsc', hok', -, -⟩ := score_ok_of_valid hv'
  rw [hok, hok']
  dsimp only [Except.map]
  refine congrArg Except.ok (Prod.ext ?_ rfl)
  rw [Multiset.coe_eq_coe]
  have hcperm : (List.sublistsLen MIN_HAND_SIZE hand).map
      (fun hcombo => (score_min_card_combo hcombo top, (↑hcombo : Multiset Card))) ~
    (List.sublistsLen MIN_HAND_SIZE hand').map
      (fun hcombo => (score_min_card_combo hcombo top, (↑hcombo : Multiset Card))) :=
    sublistsLen_map_perm hp MIN_HAND_SIZE _ (fun t t' hl ht => by
      rw [score_min_card_combo_perm ht hl top, Multiset.coe_eq_coe.2 ht])
  have hg' : scored.map (fun p => ((some p.1 : Option Nat), (↑p.2 : Multiset Card))) ~
      scored'.map (fun p => ((some p.1 : Option Nat), (↑p.2 : Multiset Card))) := by
    rw [score_each_combo_map hsc, score_each_combo_map hsc']
    exact hcperm
  have hinj : Function.Injective
      (fun q : Nat × Multiset Card => ((some q.1 : Option Nat), q.2)) := by
    intro q q' hq
    rw [Prod.ext_iff] at hq
    exact Prod.ext (Option.some.inj hq.1) hq.2
  have hstep : Multiset.map (fun q : Nat × Multiset Card => ((some q.1 : Option Nat), q.2))
      ↑(scored.map (fun p => (p.1, (↑p.2 : Multiset Card)))) =
    Multiset.map (fun q : Nat × Multiset Card => ((some q.1 : Option Nat), q.2))
      ↑(scored'.map (fun p => (p.1, (↑p.2 : Multiset Card)))) := by
    rw [← coe_map_multiset, ← coe_map_multiset, List.map_map, List.map_map]
    exact Multiset.coe_eq_coe.2 hg'
  have hbase : (↑(scored.map (fun p => (p.1, (↑p.2 : Multiset Card)))) :
      Multiset (Nat × Multiset Card)) =
    ↑(scored'.map (fun p => (p.1, (↑p.2 : Multiset Card)))) :=
    Multiset.map_injective hinj hstep
  have hbaseperm := Multiset.coe_eq_coe.1 hbase
  exact (((List.perm_insertionSort scoredLe scored).map _).trans hbaseperm).trans
    ((List.perm_insertionSort scoredLe scored').map _).symm

/-- Claim C9: permuting the hand's card order changes neither the multiset
of `(score, sub-hand-as-set)` pairs returned by `score` (nor its error), and
each 4-card sub-hand's score is independent of the order of its cards. -/
theorem claim_C9 (hand hand' : List Card) (top : Option Card) (hp : hand ~ hand') :
    ((score hand top).map (fun r =>
        ((↑(r.1.map (fun p => (p.1, (↑p.2 : Multiset Card)))) :
          Multiset (Nat × Multiset Card)), r.2)) =
      (score hand' top).map (fun r =>
        ((↑(r.1.map (fun p => (p.1, (↑p.2 : Multiset Card)))) :
          Multiset (Nat × Multiset Card)), r.2))) ∧
      ∀ l l', l.length = MIN_HAND_SIZE → l ~ l' →
        score_min_card_combo l top = score_min_card_combo l' top := by
  refine ⟨?_, fun l l' hl hll => score_min_card_combo_perm hll hl top⟩
  by_cases h1 : ∀ c ∈ hand, c ∈ ALL_CARDS
  case neg =>
    have h1' : ¬ ∀ c ∈ hand', c ∈ ALL_CARDS :=
      fun hh => h1 (fun c hc => hh c (hp.subset hc))
    unfold score
    rw [if_pos h1, if_pos h1']
  case pos =>
  have h1' : ∀ c ∈ hand', c ∈ ALL_CARDS := fun c hc => h1 c (hp.symm.subset hc)
  by_cases h2 : hand.length < MIN_HAND_SIZE
  case pos =>
    have h2' : hand'.length < MIN_HAND_SIZE := by
      rw [← hp.length_eq]
      exact h2
    unfold score
    rw [if_neg (not_not_intro h1), if_neg (not_not_intro h1'), if_pos h2, if_pos h2']
  case neg =>
  have h2' : ¬ hand'.length < MIN_HAND_SIZE := by
    rw [← hp.length_eq]
    exact h2
  by_cases h3 : hand.Nodup
  case neg =>
    have h3' : ¬ hand'.Nodup := fun hh => h3 (hp.nodup_iff.2 hh)
    unfold score
    rw [if_neg (not_not_intro h1), if_neg (not_not_intro h1'), if_neg h2, if_neg h2',
      if_pos (fun he => h3 (nodup_iff_dedup_length.2 he.symm)),
      if_pos (fun he => h3' (nodup_iff_dedup_length.2 he.symm))]
  case pos =>
  have h3' : hand'.Nodup := hp.nodup_iff.1 h3
  cases top with
  | none =>
    exact score_map_multiset_eq_of_valid hp ⟨h1, by omega, h3, trivial⟩
      ⟨h1', by omega, h3', trivial⟩
  | some t =>
    by_cases h4 : t ∈ ALL_CARDS
    · by_cases h5 : t ∈ hand
      · have h5' : t ∈ hand' := hp.subset h5
        have hs : score hand (some t) =
            .error "Invalid top-of-deck card provided: Card is duplicated" := by
          unfold score
          rw [if_neg (not_not_intro h1), if_neg h2,
            if_neg (fun he => he ((nodup_iff_dedup_length.1 h3).symm))]
          show (if t ∉ ALL_CARDS then _ else if t ∈ hand then _ else _) = _
          rw [if_neg (not_not_intro h4), if_pos h5]
        have hs' : score hand' (some t) =
            .error "Invalid top-of-deck card provided: Card is duplicated" := by
          unfold score
          rw [if_neg (not_not_intro h1'), if_neg h2',
            if_neg (fun he => he ((nodup_iff_dedup_length.1 h3').symm))]
          show (if t ∉ ALL_CARDS then _ else if t ∈ hand' then _ else _) = _
          rw [if_neg (not_not_intro h4), if_pos h5']
        rw [hs, hs']
      · have h5' : t ∉ hand' := fun hh => h5 (hp.symm.subset hh)
        exact score_map_multiset_eq_of_valid hp
          ⟨h1, by omega, h3, (⟨h4, h5⟩ : t ∈ ALL_CARDS ∧ t ∉ hand)⟩
          ⟨h1', by omega, h3', (⟨h4, h5'⟩ : t ∈ ALL_CARDS ∧ t ∉ hand')⟩
    · have hs : score hand (some t) =
          .error "Invalid top-of-deck card provided: Card is invalid" := by
        unfold score
        rw [if_neg (not_not_intro h1), if_neg h2,
          if_neg (fun he => he ((nodup_iff_dedup_length.1 h3).symm))]
        show (if t ∉ ALL_CARDS then _ else if t ∈ hand then _ else _) = _
        rw [if_pos h4]
      have hs' : score hand' (some t) =
          .error "Invalid top-of-deck card provided: Card is invalid" := by
        unfold score
        rw [if_neg (not_not_intro h1'), if_neg h2',
          if_neg (fun he => he ((nodup_iff_dedup_length.1 h3').symm))]
        show (if t ∉ ALL_CARDS then _ else if t ∈ hand' then _ else _) = _
        rw [if_pos h4]
      rw [hs, hs']

/-- Witness for C9 at a concrete hand and a reordering of it. -/
theorem claim_C9_witness :
    ([((4 : Nat), 's'), (4, 'h'), (5, 'd'), (6, 'c'), (11, 's')] : List Card) ~
        [((11 : Nat), 's'), (6, 'c'), (5, 'd'), (4, 'h'), (4, 's')] ∧
      (score [((4 : Nat), 's'), (4, 'h'), (5, 'd'), (6, 'c'), (11, 's')]
          (some (6, 's'))).map (fun r =>
          ((↑(r.1.map (fun p => (p.1, (↑p.2 : Multiset Card)))) :
            Multiset (Nat × Multiset Card)), r.2)) =
        (score [((11 : Nat), 's'), (6, 'c'), (5, 'd'), (4, 'h'), (4, 's')]
          (some (6, 's'))).map (fun r =>
          ((↑(r.1.map (fun p => (p.1, (↑p.2 : Multiset Card)))) :
            Multiset (Nat × Multiset Card)), r.2)) :=
  ⟨by decide,
    (claim_C9 [((4 : Nat), 's'), (4, 'h'), (5, 'd'), (6, 'c'), (11, 's')]
      [((11 : Nat), 's'), (6, 'c'), (5, 'd'), (4, 'h'), (4, 's')]
      (some (6, 's')) (by decide)).1⟩

